import Mathlib

/-!
Verification of `generic_utils` (Python) against its specification.

Shallow embedding of the relevant modules:
  * `generic_utils.collections.pipeline` (`Pipeline`)
  * `generic_utils.execution_context` (`ExecutionContextStack`, `AsExecutionContext`)
  * `generic_utils.config` (`Config.get_conf_value`, free `get_config_value`)

Python values are modelled by the inductive `PyVal`; Python `None` is
`PyVal.none`.  Python object identity (used by the source for stage lookup) is
modelled by an explicit numeric id carried on stage objects.  Fallible Python
code (code that can raise) is modelled with `Except`/`Option` results.
-/

/-- A universe of the Python values the claims manipulate.  `PyVal.none` is
Python's `None`. -/
inductive PyVal where
  | none : PyVal
  | int : Int → PyVal
  | str : String → PyVal
  | bool : Bool → PyVal
  | list : List PyVal → PyVal

/-- Python truthiness (`bool(v)`) for the modelled values. -/
def PyVal.truthy : PyVal → Bool
  | .none => false
  | .int n => n != 0
  | .str s => s != ""
  | .bool b => b
  | .list l => !l.isEmpty

/-- A pipeline stage function.  In Python a stage is a function object; the
first stage is called with the pipeline's `*args, **kwargs`, later stages with
a single positional argument.  `sid` models the function object's identity
(`id(f)`), which is what `list.index` equality resolves to for plain function
objects. -/
structure Stage where
  sid : Nat
  fn : List PyVal → List (String × PyVal) → PyVal

/-- Outcome of calling one transition filter `trans_filter(self, stage_func,
intermediate_result)`: it either returns a (possibly transformed) value,
raises `PipelineSuccessExit`, or raises `PipelineErrorExit`.  The exit
exceptions carry `intermediate_result` as payload. -/
inductive FilterOutcome where
  | ok : PyVal → FilterOutcome
  | successExit : PyVal → FilterOutcome
  | errorExit : PyVal → FilterOutcome

/-- A transition filter is called with the stage that just ran and its
result.  (The source also passes the pipeline itself; the pipeline's own
control flow never depends on that argument, so it is omitted from the
model's filter signature.) -/
def TransFilter : Type := Stage → PyVal → FilterOutcome

/-- A raw value supplied in the `transition_filters` argument: either a
callable or some other (non-callable) Python value. -/
inductive RawTransFilter where
  | callable : TransFilter → RawTransFilter
  | value : PyVal → RawTransFilter

/-- Exceptions raised by the pipeline module: `PipelineException` (from the
constructor), `InvalidStageException` (carrying the offending stage's id),
`PipelineErrorExit` (carrying its `intermediate_result` payload), and a
`TypeError` (from calling a non-callable kept in the filter list). -/
inductive PipeErr where
  | pipelineException
  | invalidStage (sid : Nat)
  | errorExit (v : PyVal)
  | typeError

/-- A constructed `Pipeline`: the stage function list and the (already
validated) transition filter list. -/
structure Pipeline where
  stage_functions : List Stage
  transition_filters : List RawTransFilter

namespace Pipeline

/-- `Pipeline.__init__`: iterates the supplied transition filters and raises
`PipelineException` for a filter that is truthy and not callable
(`if trans_filter and not callable(trans_filter): raise PipelineException`);
note a falsy non-callable passes the check and is kept in the list. -/
def mk' (stages : List Stage) : List RawTransFilter → Except PipeErr Pipeline
  | [] => .ok ⟨stages, []⟩
  | .callable f :: rest =>
      match mk' stages rest with
      | .ok p => .ok ⟨stages, .callable f :: p.transition_filters⟩
      | .error e => .error e
  | .value v :: rest =>
      if v.truthy then .error .pipelineException
      else
        match mk' stages rest with
        | .ok p => .ok ⟨stages, .value v :: p.transition_filters⟩
        | .error e => .error e

/-- `Pipeline._execute_transition_filters` run on `stage_func` and
`intermediate_result`: fold the filters left to right; a `PipelineSuccessExit`
is caught and converted to `(False, exit.intermediate_result)`; a
`PipelineErrorExit` is re-raised; otherwise `(True, result)` is returned.
Calling a non-callable value raises `TypeError`. -/
def execFilters : List RawTransFilter → Stage → PyVal → Except PipeErr (Bool × PyVal)
  | [], _, r => .ok (true, r)
  | .value _ :: _, _, _ => .error .typeError
  | .callable f :: rest, sf, r =>
      match f sf r with
      | .ok r' => execFilters rest sf r'
      | .successExit v => .ok (false, v)
      | .errorExit v => .error (.errorExit v)

/-- The state of `Pipeline.start`'s loop right after stage `f` produced
`intermediate_result = r`, with `rest` the stages still ahead: if no stage
remains, return `r`; otherwise run the transition filters (propagating
`PipelineErrorExit`), stop with the current value unless they said to
continue, and otherwise call the next stage with one positional argument. -/
def afterStage (filters : List RawTransFilter) : Stage → PyVal → List Stage →
    Except PipeErr PyVal
  | _, r, [] => .ok r
  | f, r, g :: rest =>
      match execFilters filters f r with
      | .error e => .error e
      | .ok (shouldContinue, r') =>
          if shouldContinue then afterStage filters g (g.fn [r'] []) rest
          else .ok r'

/-- `Pipeline.start(*args, **kwargs)`: `intermediate_result` starts as `None`
(returned as-is for an empty pipeline); stage 0 is called with the original
arguments, then the loop of `afterStage` runs. -/
def start (p : Pipeline) (args : List PyVal) (kwargs : List (String × PyVal)) :
    Except PipeErr PyVal :=
  match p.stage_functions with
  | [] => .ok .none
  | s0 :: rest => afterStage p.transition_filters s0 (s0.fn args kwargs) rest

/-- `Pipeline._get_stage_index`: `list.index` on the stage functions (first
occurrence, matching by object identity), raising `InvalidStageException`
when absent. -/
def getStageIndex (p : Pipeline) (f : Stage) : Except PipeErr Nat :=
  match p.stage_functions.findIdx? (fun s => s.sid = f.sid) with
  | some i => .ok i
  | Option.none => .error (.invalidStage f.sid)

/-- `Pipeline.with_starting_stage`: a new pipeline over the stage list sliced
from the first occurrence of `start_from_stage`, sharing the transition
filters. -/
def with_starting_stage (p : Pipeline) (f : Stage) : Except PipeErr Pipeline :=
  match p.getStageIndex f with
  | .ok i => .ok ⟨p.stage_functions.drop i, p.transition_filters⟩
  | .error e => .error e

/-! ### Instrumented (traced) semantics

The traced variants additionally count how many filter invocations /
stage invocations the interpreter performs; they are used to state that an
early exit skips the remaining stages and filters.  `execFiltersTr` counts
calls made to entries of the filter list; `afterStageTr` counts the stages of
`rest` that get invoked. -/

/-- Traced `_execute_transition_filters`: also returns how many entries of the
filter list were invoked (a non-callable entry counts when it is reached,
since Python attempts the call). -/
def execFiltersTr : List RawTransFilter → Stage → PyVal →
    Except PipeErr (Bool × PyVal) × Nat
  | [], _, r => (.ok (true, r), 0)
  | .value _ :: _, _, _ => (.error .typeError, 1)
  | .callable f :: rest, sf, r =>
      match f sf r with
      | .ok r' =>
          let (res, n) := execFiltersTr rest sf r'
          (res, n + 1)
      | .successExit v => (.ok (false, v), 1)
      | .errorExit v => (.error (.errorExit v), 1)

/-- Traced `afterStage`: also counts how many stages of `rest` are invoked. -/
def afterStageTr (filters : List RawTransFilter) : Stage → PyVal → List Stage →
    Except PipeErr PyVal × Nat
  | _, r, [] => (.ok r, 0)
  | f, r, g :: rest =>
      match execFilters filters f r with
      | .error e => (.error e, 0)
      | .ok (shouldContinue, r') =>
          if shouldContinue then
            let (res, n) := afterStageTr filters g (g.fn [r'] []) rest
            (res, n + 1)
          else (.ok r', 0)

/-- Traced `start`: result together with the total number of stage
invocations. -/
def startTr (p : Pipeline) (args : List PyVal) (kwargs : List (String × PyVal)) :
    Except PipeErr PyVal × Nat :=
  match p.stage_functions with
  | [] => (.ok .none, 0)
  | s0 :: rest =>
      let (res, n) := afterStageTr p.transition_filters s0 (s0.fn args kwargs) rest
      (res, n + 1)

/-- One step of the `start` loop viewed as a transition on configurations
`(just-run stage, its result, remaining stages)`: defined exactly when the
transition filters return `(True, _)` and a next stage exists. -/
def stepCfg (filters : List RawTransFilter) :
    Stage × PyVal × List Stage → Option (Stage × PyVal × List Stage)
  | (_, _, []) => Option.none
  | (f, r, g :: rest) =>
      match execFilters filters f r with
      | .ok (true, r') => some (g, g.fn [r'] [], rest)
      | _ => Option.none

/-- `n` steps of the `start` loop. -/
def stepsCfg (filters : List RawTransFilter) :
    Nat → Stage × PyVal × List Stage → Option (Stage × PyVal × List Stage)
  | 0, c => some c
  | n + 1, c =>
      match stepCfg filters c with
      | some c' => stepsCfg filters n c'
      | Option.none => Option.none

end Pipeline

/-! ## `generic_utils.execution_context`

`ExecutionContextStack` holds a Python list of `BaseExecutionContext`
objects; the top of the stack is the last list element.  A context is
modelled by `Ctx`: `cid` models the Python object's identity (the source
classes define no `__eq__`, so `in`, `==`, `!=` on them resolve to object
identity), `data` its key/value store.  `Ctx.get` models
`ThreadLocalExecutionContext.get(key)` called with no default: `Option.none`
stands for the raised `ExecutionContextValueDoesNotExist`. -/

structure Ctx where
  cid : Nat
  data : List (String × PyVal)

namespace Ctx

/-- Object identity comparison (`is`, and `==`/`in` for these classes). -/
def idEq (a b : Ctx) : Bool := a.cid == b.cid

/-- `ThreadLocalExecutionContext.get(key)` with no default: the stored value,
or `Option.none` for the raised `ExecutionContextValueDoesNotExist`. -/
def get (c : Ctx) (key : String) : Option PyVal :=
  (c.data.find? (fun kv => kv.1 == key)).map (·.2)

end Ctx

/-- Errors raised by the execution-context module (plus the raw `IndexError`
that `list[-1]` on an empty list raises). -/
inductive ECError where
  | valueDoesNotExist (key : String)
  | genUtilsValueError
  | stackEmpty
  | indexError
deriving DecidableEq, Repr

namespace ExecutionContextStack

/-- The scan of `ExecutionContextStack.get`: `for execution_ctx in
reversed(self.current_stack)` returning the first context's value for `key`,
swallowing `ExecutionContextValueDoesNotExist`.  The argument list is already
reversed (top first). -/
def getScan : List Ctx → String → Option PyVal
  | [], _ => Option.none
  | c :: rest, key =>
      match c.get key with
      | some v => some v
      | Option.none => getScan rest key

/-- `ExecutionContextStack.get(key, default=NOTSET)`: scan top-down; on a
miss return `default` when one was supplied (`Option.some` models any value
other than the `NOTSET` sentinel, so `some PyVal.none` is a legitimate
default) and otherwise raise `ExecutionContextValueDoesNotExist`. -/
def get (stack : List Ctx) (key : String) (default : Option PyVal) :
    Except ECError PyVal :=
  match getScan stack.reverse key with
  | some v => .ok v
  | Option.none =>
      match default with
      | some d => .ok d
      | Option.none => .error (.valueDoesNotExist key)

/-- The `while self.current_stack[-1] != exec_context: popped_items.append(self.pop())`
loop of `pop_to_item`, on the reversed (top-first) stack.  Returns
`(raised, popped items in pop order, remaining stack top-first)`; reading
`[-1]` from an empty list raises `IndexError`. -/
def popLoop : List Ctx → Ctx → Option ECError × List Ctx × List Ctx
  | [], _ => (some .indexError, [], [])
  | c :: rest, m =>
      if c.idEq m then (Option.none, [], c :: rest)
      else
        let (e, popped, rem) := popLoop rest m
        (e, c :: popped, rem)

/-- `ExecutionContextStack.pop_to_item(exec_context, raise_exception=True)`:
when `raise_exception is True` and the marker is not in the stack, raise
`GenUtilsValueError` before touching the stack; otherwise pop until the
marker is on top.  Returns `(raised exception, popped items in pop order,
resulting stack)`. -/
def pop_to_item (stack : List Ctx) (m : Ctx) (raiseException : Bool) :
    Option ECError × List Ctx × List Ctx :=
  if raiseException = true ∧ ¬ stack.any (·.idEq m) then
    (some .genUtilsValueError, [], stack)
  else
    let (e, popped, rem) := popLoop stack.reverse m
    (e, popped, rem.reverse)

end ExecutionContextStack

namespace AsExecutionContext

/-- The marker recorded by `AsExecutionContext.__enter__`:
`execution_context_stack.peek()` (the last list element), or `None` when the
stack is empty. -/
def enterMark (stack : List Ctx) : Option Ctx := stack.getLast?

/-- `AsExecutionContext.__exit__`: with a recorded marker, `pop_to_item(marker,
raise_exception=True)`; with no marker (stack was empty on entry), `clear()`.
Returns `(raised exception, resulting stack)`. -/
def exit (entry : Option Ctx) (stack : List Ctx) : Option ECError × List Ctx :=
  match entry with
  | some m =>
      let (e, _, rem) := ExecutionContextStack.pop_to_item stack m true
      (e, rem)
  | Option.none => (Option.none, [])

end AsExecutionContext

/-! ## `generic_utils.config`

`Config` holds a local `_config_dict` and a list of registered provider
configs (`_config_providers`).  A provider lookup `provider[key]` goes
through `__getitem__` → `get_conf_value(key)` (no default, no type func),
whose miss is a `ConfigKeyError` (a `KeyError`) caught by the loop in
`_get_raw_value`. -/

inductive Config where
  | mk : List (String × PyVal) → List Config → Config

/-- The local `_config_dict`. -/
def Config.config_dict : Config → List (String × PyVal)
  | .mk d _ => d

/-- The registered `_config_providers`, in registration order. -/
def Config.config_providers : Config → List Config
  | .mk _ ps => ps

mutual

/-- `Config._get_raw_value`: the local dict first, then each provider in
registration order, first hit wins; `Option.none` models the raised
`ConfigKeyError`. -/
def Config.get_raw_value : Config → String → Option PyVal
  | .mk d ps, key =>
      match d.find? (fun kv => kv.1 == key) with
      | some kv => some kv.2
      | Option.none => Config.providerScan ps key

/-- The `for provider in self._config_providers` loop of `_get_raw_value`:
`provider[key]`, swallowing `KeyError`, stopping at the first hit.  A
provider hit is itself a defaultless `get_conf_value`, i.e. the provider's
own raw lookup. -/
def Config.providerScan : List Config → String → Option PyVal
  | [], _ => Option.none
  | p :: rest, key =>
      match Config.get_raw_value p key with
      | some v => some v
      | Option.none => Config.providerScan rest key

end

/-- The trailing `if value_type_func: return_val = value_type_func(return_val)`
step of `get_conf_value`. -/
def applyTypeFunc : Option (PyVal → PyVal) → PyVal → PyVal
  | some f, v => f v
  | Option.none, v => v

/-- `Config.get_conf_value(key, default_value=NOTSET, value_type_func=None)`:
resolve via `_get_raw_value`; on a miss fall back to `default_value` when one
was supplied (`Option.some`) and otherwise raise `ConfigKeyError`
(`Option.none` result); `value_type_func`, when supplied, is applied to the
resolved value before returning. -/
def Config.get_conf_value (c : Config) (key : String) (default : Option PyVal)
    (value_type_func : Option (PyVal → PyVal)) : Option PyVal :=
  match
    (match c.get_raw_value key with
     | some v => some v
     | Option.none => default)
  with
  | Option.none => Option.none
  | some v => some (applyTypeFunc value_type_func v)

/-! ## Free function `get_config_value` (environment-backed)

The free `get_config_value(property_name, default=None, secure=False,
val_type=None)` reads the process environment directly.  The environment is
modelled as an association list of strings.  The Python types that can occur
as cast targets for the modelled value universe are `PyType` (the source's
`dict` branch needs a `dict` value, which is outside the modelled universe,
and `tuple` is identified with `list` there; neither is touched by any
claim).  The `secure` flag only redacts log output and is omitted. -/

inductive PyType where
  | int | str | bool | list | noneType
deriving DecidableEq, Repr

/-- `isinstance(v, t)` over the modelled universe.  Note `bool` is a subclass
of `int` in Python, so a `bool` is an instance of `int`. -/
def PyVal.isinst : PyVal → PyType → Bool
  | .int _, .int => true
  | .bool _, .int => true
  | .bool _, .bool => true
  | .str _, .str => true
  | .list _, .list => true
  | .none, .noneType => true
  | _, _ => false

/-- `type(v)` over the modelled universe. -/
def PyVal.pyTypeOf : PyVal → PyType
  | .none => .noneType
  | .int _ => .int
  | .str _ => .str
  | .bool _ => .bool
  | .list _ => .list

mutual

/-- Python `str(v)` over the modelled universe. -/
def PyVal.pyStr : PyVal → String
  | .none => "None"
  | .int n => toString n
  | .str s => s
  | .bool b => if b then "True" else "False"
  | .list l => "[" ++ String.intercalate ", " (PyVal.pyReprs l) ++ "]"

/-- Python `repr(v)` as used when rendering list elements (strings are
quoted; escaping inside the quotes is not modelled). -/
def PyVal.pyRepr : PyVal → String
  | .str s => "\x27" ++ s ++ "\x27"
  | v => PyVal.pyStr v

/-- `repr` of each element of a list. -/
def PyVal.pyReprs : List PyVal → List String
  | [] => []
  | v :: l => PyVal.pyRepr v :: PyVal.pyReprs l

end

/-- `generic_utils.typetools.parse_bool`: a non-empty string whose upper-case
form is one of `TRUE`, `YES`, `1`, `T` parses as `True`, everything else as
`False`. -/
def parse_bool (s : String) : Bool :=
  if s != "" then s.toUpper ∈ ["TRUE", "YES", "1", "T"] else false

/-- Digit-list accumulator for `pyParseInt`: all characters must be
digits. -/
def parseDigitsAux : List Char → Nat → Option Nat
  | [], acc => some acc
  | c :: cs, acc =>
      if c.isDigit then parseDigitsAux cs (acc * 10 + (c.toNat - '0'.toNat))
      else Option.none

/-- A non-empty all-digit character list as a natural number. -/
def parseDigits (ds : List Char) : Option Nat :=
  if ds.isEmpty then Option.none else parseDigitsAux ds 0

/-- Python `int(s)` on a string: surrounding whitespace stripped, an optional
sign, then decimal digits; `Option.none` models the raised `ValueError`. -/
def pyParseInt (s : String) : Option Int :=
  let cs := (s.toList.dropWhile (·.isWhitespace)).reverse.dropWhile
      (·.isWhitespace) |>.reverse
  match cs with
  | '-' :: ds => (parseDigits ds).map (fun n => -(n : Int))
  | '+' :: ds => (parseDigits ds).map (fun n => (n : Int))
  | ds => (parseDigits ds).map (fun n => (n : Int))

/-- One casting branch of `get_config_value`'s loop for target `t` applied to
`val` (the `if not isinstance(val, cast_option): ...` body): `Option.none`
models a raised `TypeError`/`ValueError` (caught by the loop). -/
def castTo : PyType → PyVal → Option PyVal
  | .int, v =>
      match v with
      | .str s => (pyParseInt s).map PyVal.int
      | .bool b => some (.int (if b then 1 else 0))
      | .int n => some (.int n)
      | _ => Option.none
  | .str, v => some (.str v.pyStr)
  | .bool, v =>
      match v with
      | .str s => some (.bool (parse_bool s))
      | v => some (.bool v.truthy)
  | .list, v =>
      match v with
      | .str s =>
          let s' := s.trim
          if s' != "" then
            some (.list ((s'.splitOn ",").map (fun t => PyVal.str t.trim)))
          else some (.list [])
      | v => if v.truthy then some v else some (.list [])
  | .noneType, _ => Option.none

/-- The `for cast_option in val_type` loop of `get_config_value`: an entry
`Option.none` models the `None` placeholder cast target (whose `isinstance`
raises `TypeError`, caught and skipped); for a real target, break as soon as
`val` is an instance of it (possibly after a cast), keep a cast result even
when it fails the instance check, and keep the old value when the cast
raises. -/
def castLoop : List (Option PyType) → PyVal → PyVal
  | [], v => v
  | Option.none :: rest, v => castLoop rest v
  | some t :: rest, v =>
      if v.isinst t then v
      else
        match castTo t v with
        | some v' => if v'.isinst t then v' else castLoop rest v'
        | Option.none => castLoop rest v

/-- The free `get_config_value(property_name, default, val_type)`: take the
environment variable's string value when present, else `default`; when no
explicit `val_type` is given and `default` is not `None`, infer
`[type(default)]` as the cast targets (when `default` is also `None`, the
loop runs over the `None` placeholder); then run the casting loop. -/
def get_config_value (env : List (String × String)) (property_name : String)
    (default : PyVal) (val_type : Option (List PyType)) : PyVal :=
  let val : PyVal :=
    match env.find? (fun kv => kv.1 == property_name) with
    | some kv => PyVal.str kv.2
    | Option.none => default
  let casts : List (Option PyType) :=
    match val_type with
    | some ts => ts.map some
    | Option.none =>
        match default with
        | .none => [Option.none]
        | d => [some d.pyTypeOf]
  castLoop casts val

/-! ## Derived definitions used by the claim statements -/

/-- Plain composition of stages: feed `r` to the first stage as its single
positional argument, its result to the next, and so on (the claim's
`sn(...s1(s0(x)))` shape for the stages after stage 0). -/
def composeStages : List Stage → PyVal → PyVal
  | [], r => r
  | f :: rest, r => composeStages rest (f.fn [r] [])

/-- Stated from the spec for the `with_starting_stage` refinement claim:
"running the original pipeline starting from `si` with `x` as `si`'s input",
i.e. the original run's continuation at the point where the stage at index
`i` is about to be invoked on the given arguments, under the original
pipeline's stages and transition filters. -/
def runFromStageSpec (p : Pipeline) (i : Nat) (args : List PyVal)
    (kwargs : List (String × PyVal)) : Except PipeErr PyVal :=
  match p.stage_functions.drop i with
  | [] => .ok PyVal.none
  | fi :: rest => Pipeline.afterStage p.transition_filters fi (fi.fn args kwargs) rest

/-! ### Concrete sample data (used by the witness theorems) -/

/-- Sample stage: add one to an integer argument. -/
def incStage : Stage :=
  ⟨0, fun args _ => match args with | [.int x] => .int (x + 1) | _ => .none⟩

/-- Sample stage: double an integer argument. -/
def dblStage : Stage :=
  ⟨1, fun args _ => match args with | [.int x] => .int (2 * x) | _ => .none⟩

/-- Sample stage: negate an integer argument. -/
def negStage : Stage :=
  ⟨2, fun args _ => match args with | [.int x] => .int (-x) | _ => .none⟩

/-- Sample transition filter that lets every result through unchanged. -/
def passFilter : TransFilter := fun _ r => .ok r

/-- Sample transition filter raising `PipelineSuccessExit` with payload 99
after the stage whose id is 1. -/
def exitAfterDblFilter : TransFilter :=
  fun sf r => if sf.sid == 1 then .successExit (.int 99) else .ok r

/-- Sample transition filter raising `PipelineErrorExit` (payload: the
current intermediate result) after the stage whose id is 1. -/
def errorAfterDblFilter : TransFilter :=
  fun sf r => if sf.sid == 1 then .errorExit r else .ok r

/-! ## Theorems -/

section PipelineTheorems

/-- With no transition filters the loop is plain composition. -/
theorem afterStage_nil_filters (rest : List Stage) (f : Stage) (r : PyVal) :
    Pipeline.afterStage [] f r rest = .ok (composeStages rest r) := by
  induction rest generalizing f r with
  | nil => rfl
  | cons g rest ih =>
      simp [Pipeline.afterStage, Pipeline.execFilters, composeStages, ih]

/-- C1: a pipeline `P` of stages `[s0, ..., sn]` with no transition filters
computes `P.start(x) = sn(...s1(s0(x)))`: stage 0 receives the original
arguments, each later stage exactly one positional argument (the previous
result); a pipeline of zero stages returns `None` for every choice of
arguments. -/
theorem pipeline_start_is_composition (p : Pipeline)
    (hf : p.transition_filters = []) (args : List PyVal)
    (kwargs : List (String × PyVal)) :
    p.start args kwargs =
      .ok (match p.stage_functions with
           | [] => PyVal.none
           | s0 :: rest => composeStages rest (s0.fn args kwargs)) := by
  obtain ⟨stages, filters⟩ := p
  subst hf
  cases stages with
  | nil => rfl
  | cons s0 rest => simpa [Pipeline.start] using afterStage_nil_filters rest s0 _

/-- Witness for C1 at a concrete pipeline: `(inc; dbl; neg).start(3)` is
`-(2*(3+1)) = -8`, and the empty pipeline returns `None`. -/
theorem pipeline_start_is_composition_witness :
    (⟨[incStage, dblStage, negStage], []⟩ : Pipeline).start [.int 3] [] =
        .ok (.int (-8)) ∧
    (⟨[], []⟩ : Pipeline).start [.int 3] [("k", .int 1)] = .ok PyVal.none := by
  constructor
  · exact (pipeline_start_is_composition ⟨[incStage, dblStage, negStage], []⟩
      rfl [.int 3] []).trans (by simp [composeStages, incStage, dblStage, negStage])
  · exact (pipeline_start_is_composition ⟨[], []⟩ rfl [.int 3] [("k", .int 1)]).trans rfl

end PipelineTheorems

section ExitTheorems

/-- The traced filter run computes the same result as the untraced one. -/
theorem execFiltersTr_fst (fs : List RawTransFilter) (sf : Stage) (r : PyVal) :
    (Pipeline.execFiltersTr fs sf r).1 = Pipeline.execFilters fs sf r := by
  induction fs generalizing r with
  | nil => rfl
  | cons hd rest ih =>
      cases hd with
      | value v => rfl
      | callable f =>
          simp only [Pipeline.execFiltersTr, Pipeline.execFilters]
          cases hfr : f sf r with
          | ok r' => exact ih r'
          | successExit v => rfl
          | errorExit v => rfl

/-- The traced stage loop computes the same result as the untraced one. -/
theorem afterStageTr_fst (filters : List RawTransFilter) (rest : List Stage)
    (f : Stage) (r : PyVal) :
    (Pipeline.afterStageTr filters f r rest).1 =
      Pipeline.afterStage filters f r rest := by
  induction rest generalizing f r with
  | nil => rfl
  | cons g rest ih =>
      simp only [Pipeline.afterStageTr, Pipeline.afterStage]
      cases hE : Pipeline.execFilters filters f r with
      | error e => rfl
      | ok br =>
          obtain ⟨c, rc⟩ := br
          cases c with
          | false => rfl
          | true => exact ih g (g.fn [rc] [])

/-- The traced `start` computes the same result as `start`. -/
theorem startTr_fst (p : Pipeline) (args : List PyVal)
    (kwargs : List (String × PyVal)) :
    (p.startTr args kwargs).1 = p.start args kwargs := by
  obtain ⟨stages, filters⟩ := p
  cases stages with
  | nil => rfl
  | cons s0 rest => exact afterStageTr_fst filters rest s0 (s0.fn args kwargs)

/-- Splitting the traced filter run over a prefix that continued normally. -/
theorem execFiltersTr_append (pre post : List RawTransFilter) (sf : Stage)
    (r r' : PyVal) (h : Pipeline.execFilters pre sf r = .ok (true, r')) :
    Pipeline.execFiltersTr (pre ++ post) sf r =
      ((Pipeline.execFiltersTr post sf r').1,
       (Pipeline.execFiltersTr post sf r').2 + pre.length) := by
  induction pre generalizing r with
  | nil =>
      simp only [Pipeline.execFilters, Except.ok.injEq, Prod.mk.injEq, true_and] at h
      subst h
      simp
  | cons hd pre ih =>
      cases hd with
      | value v => simp [Pipeline.execFilters] at h
      | callable f =>
          simp only [Pipeline.execFilters] at h
          cases hfr : f sf r with
          | ok r'' =>
              rw [hfr] at h
              have h' : Pipeline.execFilters pre sf r'' = .ok (true, r') := h
              have hI := ih r'' h'
              show (Pipeline.execFiltersTr (RawTransFilter.callable f :: (pre ++ post))
                  sf r) = _
              simp only [Pipeline.execFiltersTr, hfr, hI]
              simp [Nat.add_assoc]
          | successExit v => rw [hfr] at h; simp at h
          | errorExit v => rw [hfr] at h; simp at h

/-- Unrolling `n` continuing steps of the `start` loop in the traced
semantics: the result is the reached configuration's, the stage count grows
by `n`. -/
theorem afterStageTr_steps (filters : List RawTransFilter) (n : Nat) :
    ∀ c c' : Stage × PyVal × List Stage,
    Pipeline.stepsCfg filters n c = some c' →
    Pipeline.afterStageTr filters c.1 c.2.1 c.2.2 =
      ((Pipeline.afterStageTr filters c'.1 c'.2.1 c'.2.2).1,
       (Pipeline.afterStageTr filters c'.1 c'.2.1 c'.2.2).2 + n) := by
  induction n with
  | zero =>
      intro c c' h
      simp only [Pipeline.stepsCfg, Option.some.injEq] at h
      subst h
      simp
  | succ n ih =>
      rintro ⟨f, r, rest⟩ c' h
      simp only [Pipeline.stepsCfg] at h
      cases rest with
      | nil => simp [Pipeline.stepCfg] at h
      | cons g rest0 =>
          simp only [Pipeline.stepCfg] at h
          cases hE : Pipeline.execFilters filters f r with
          | error e => rw [hE] at h; simp at h
          | ok br =>
              obtain ⟨c0, rc⟩ := br
              rw [hE] at h
              cases c0 with
              | false => simp at h
              | true =>
                  have h' : Pipeline.stepsCfg filters n (g, g.fn [rc] [], rest0)
                      = some c' := h
                  have hrec := ih (g, g.fn [rc] [], rest0) c' h'
                  rcases hA : Pipeline.afterStageTr filters g (g.fn [rc] []) rest0
                    with ⟨res, m⟩
                  have hrec' : (res, m) =
                      ((Pipeline.afterStageTr filters c'.1 c'.2.1 c'.2.2).1,
                       (Pipeline.afterStageTr filters c'.1 c'.2.1 c'.2.2).2 + n) := by
                    rw [← hA]; exact hrec
                  rw [Prod.mk.injEq] at hrec'
                  obtain ⟨h1, h2⟩ := hrec'
                  show Pipeline.afterStageTr filters f r (g :: rest0) = _
                  simp only [Pipeline.afterStageTr, hE, hA]
                  rw [Prod.mk.injEq]
                  refine ⟨by simpa using h1, by simp; omega⟩

end ExitTheorems

/-- C2: in a pipeline whose run reaches the transition after stage `f` (the
`n`-th continuing step from stage 0) with intermediate result `r`, where the
filters before `φ` in that transition passed normally transforming `r` to
`r'`: if `φ` raises `PipelineSuccessExit` with value `v` then `start` returns
`v`, exactly the stages up to and including `f` were invoked (`n + 1` of
them, so the later stages are skipped), and exactly the filters up to and
including `φ` ran in that transition; if `φ` instead raises
`PipelineErrorExit` with payload `v`, that exact exception (type and payload)
propagates out of `start`. -/
theorem pipeline_exit_signals
    (filters fpre fpost : List RawTransFilter) (φ : TransFilter)
    (s0 f g : Stage) (rest0 rest' : List Stage)
    (args : List PyVal) (kwargs : List (String × PyVal))
    (n : Nat) (r r' : PyVal)
    (hfilters : filters = fpre ++ .callable φ :: fpost)
    (hreach : Pipeline.stepsCfg filters n (s0, s0.fn args kwargs, rest0) =
        some (f, r, g :: rest'))
    (hfpre : Pipeline.execFilters fpre f r = .ok (true, r')) :
    (∀ v, φ f r' = .successExit v →
        Pipeline.start ⟨s0 :: rest0, filters⟩ args kwargs = .ok v ∧
        Pipeline.startTr ⟨s0 :: rest0, filters⟩ args kwargs = (.ok v, n + 1) ∧
        Pipeline.execFiltersTr filters f r = (.ok (false, v), fpre.length + 1)) ∧
    (∀ v, φ f r' = .errorExit v →
        Pipeline.start ⟨s0 :: rest0, filters⟩ args kwargs =
          .error (.errorExit v) ∧
        Pipeline.startTr ⟨s0 :: rest0, filters⟩ args kwargs =
          (.error (.errorExit v), n + 1) ∧
        Pipeline.execFiltersTr filters f r =
          (.error (.errorExit v), fpre.length + 1)) := by
  have main : ∀ (out : Except PipeErr (Bool × PyVal)) (exitRes : Except PipeErr PyVal),
      Pipeline.execFiltersTr (RawTransFilter.callable φ :: fpost) f r' = (out, 1) →
      (∀ fl, Pipeline.execFilters fl f r = out →
        Pipeline.afterStageTr fl f r (g :: rest') = (exitRes, 0)) →
      Pipeline.startTr ⟨s0 :: rest0, filters⟩ args kwargs = (exitRes, n + 1) ∧
      Pipeline.execFiltersTr filters f r = (out, fpre.length + 1) := by
    intro out exitRes hout hafter
    have hTr : Pipeline.execFiltersTr filters f r = (out, fpre.length + 1) := by
      rw [hfilters]
      rw [execFiltersTr_append fpre (RawTransFilter.callable φ :: fpost) f r r' hfpre]
      rw [hout]
      simp [Nat.add_comm]
    have hU : Pipeline.execFilters filters f r = out := by
      rw [← execFiltersTr_fst, hTr]
    have hAfter : Pipeline.afterStageTr filters f r (g :: rest') = (exitRes, 0) :=
      hafter filters hU
    have hSteps := afterStageTr_steps filters n (s0, s0.fn args kwargs, rest0)
      (f, r, g :: rest') hreach
    have hStart : Pipeline.afterStageTr filters s0 (s0.fn args kwargs) rest0 =
        (exitRes, n) := by
      have : Pipeline.afterStageTr filters s0 (s0.fn args kwargs) rest0 =
          ((Pipeline.afterStageTr filters f r (g :: rest')).1,
           (Pipeline.afterStageTr filters f r (g :: rest')).2 + n) := hSteps
      rw [hAfter] at this
      simpa using this
    constructor
    · show (let (res, m) := Pipeline.afterStageTr filters s0 (s0.fn args kwargs) rest0
            (res, m + 1)) = (exitRes, n + 1)
      rw [hStart]
    · exact hTr
  constructor
  · intro v hφ
    have hout : Pipeline.execFiltersTr (RawTransFilter.callable φ :: fpost) f r' =
        (.ok (false, v), 1) := by
      simp [Pipeline.execFiltersTr, hφ]
    have hM := main (.ok (false, v)) (.ok v) hout (by
      intro fl hU
      simp [Pipeline.afterStageTr, hU])
    refine ⟨?_, hM.1, hM.2⟩
    rw [← startTr_fst, hM.1]
  · intro v hφ
    have hout : Pipeline.execFiltersTr (RawTransFilter.callable φ :: fpost) f r' =
        (.error (.errorExit v), 1) := by
      simp [Pipeline.execFiltersTr, hφ]
    have hM := main (.error (.errorExit v)) (.error (.errorExit v)) hout (by
      intro fl hU
      simp [Pipeline.afterStageTr, hU])
    refine ⟨?_, hM.1, hM.2⟩
    rw [← startTr_fst, hM.1]

/-- Witness for C2 at a concrete pipeline: `(inc; dbl; neg)` under filters
`[pass, exit-after-dbl, pass]` on input 3: the success exit fires after the
`dbl` stage (result 8), so `start` returns 99, only 2 of the 3 stages ran,
and only 2 of the 3 filters ran in that transition. -/
theorem pipeline_exit_signals_witness :
    Pipeline.start ⟨[incStage, dblStage, negStage],
        [.callable passFilter, .callable exitAfterDblFilter, .callable passFilter]⟩
        [.int 3] [] = .ok (.int 99) ∧
    Pipeline.startTr ⟨[incStage, dblStage, negStage],
        [.callable passFilter, .callable exitAfterDblFilter, .callable passFilter]⟩
        [.int 3] [] = (.ok (.int 99), 2) ∧
    Pipeline.execFiltersTr
        [.callable passFilter, .callable exitAfterDblFilter, .callable passFilter]
        dblStage (.int 8) = (.ok (false, .int 99), 2) :=
  (pipeline_exit_signals
      [.callable passFilter, .callable exitAfterDblFilter, .callable passFilter]
      [.callable passFilter] [.callable passFilter] exitAfterDblFilter
      incStage dblStage negStage [dblStage, negStage] []
      [.int 3] [] 1 (.int 8) (.int 8)
      rfl rfl rfl).1 (.int 99) rfl

/-- C6: `with_starting_stage(f)` for `f` one of the pipeline's stage
functions (matched by identity, first occurrence) yields a pipeline sharing
the original's transition filters whose `start` behaves as the original
pipeline run from stage `f` with the given input as `f`'s argument
(`runFromStageSpec`); for `f` not among the stage functions it raises
`InvalidStageException`. -/
theorem with_starting_stage_spec (p : Pipeline) (f : Stage) :
    (∀ i, p.stage_functions.findIdx? (fun s => s.sid = f.sid) = some i →
      ∃ p', p.with_starting_stage f = .ok p' ∧
        p'.transition_filters = p.transition_filters ∧
        ∀ args kwargs, p'.start args kwargs = runFromStageSpec p i args kwargs) ∧
    (p.stage_functions.findIdx? (fun s => s.sid = f.sid) = Option.none →
      p.with_starting_stage f = .error (.invalidStage f.sid)) := by
  constructor
  · intro i h
    refine ⟨⟨p.stage_functions.drop i, p.transition_filters⟩, ?_, rfl, ?_⟩
    · simp [Pipeline.with_starting_stage, Pipeline.getStageIndex, h]
    · intro args kwargs
      cases hd : p.stage_functions.drop i with
      | nil => simp [Pipeline.start, runFromStageSpec, hd]
      | cons fi rest => simp [Pipeline.start, runFromStageSpec, hd]
  · intro h
    simp [Pipeline.with_starting_stage, Pipeline.getStageIndex, h]

/-- Witness for C6: in `(inc; dbl; neg)` the stage `dbl` sits at index 1 and
truncation from it exists and agrees with the original run from `dbl`, while
an unknown stage (id 7) is rejected. -/
theorem with_starting_stage_spec_witness :
    (∃ p', Pipeline.with_starting_stage
        ⟨[incStage, dblStage, negStage], []⟩ dblStage = .ok p' ∧
      p'.transition_filters =
        (⟨[incStage, dblStage, negStage], []⟩ : Pipeline).transition_filters ∧
      ∀ args kwargs, p'.start args kwargs =
        runFromStageSpec ⟨[incStage, dblStage, negStage], []⟩ 1 args kwargs) ∧
    Pipeline.with_starting_stage ⟨[incStage, dblStage, negStage], []⟩
        ⟨7, fun _ _ => .none⟩ = .error (.invalidStage 7) :=
  ⟨(with_starting_stage_spec ⟨[incStage, dblStage, negStage], []⟩ dblStage).1 1 rfl,
   (with_starting_stage_spec ⟨[incStage, dblStage, negStage], []⟩
      ⟨7, fun _ _ => .none⟩).2 rfl⟩

/-- The constructor check as a single conditional: it raises exactly when
some supplied filter value is truthy and non-callable. -/
theorem mk_filter_check (stages : List Stage) (raws : List RawTransFilter) :
    Pipeline.mk' stages raws =
      (if raws.any (fun rf => match rf with
          | .value v => v.truthy
          | .callable _ => false)
       then .error .pipelineException else .ok ⟨stages, raws⟩) := by
  induction raws with
  | nil => rfl
  | cons hd rest ih =>
      cases hd with
      | callable f =>
          simp only [Pipeline.mk', ih, List.any_cons]
          by_cases hA : (rest.any (fun rf => match rf with
              | RawTransFilter.value v => v.truthy
              | RawTransFilter.callable _ => false) = true)
          · simp [hA]
          · simp [hA]
      | value v =>
          simp only [Pipeline.mk', ih, List.any_cons]
          by_cases hv : (v.truthy = true)
          · simp [hv]
          · by_cases hA : (rest.any (fun rf => match rf with
                | RawTransFilter.value v => v.truthy
                | RawTransFilter.callable _ => false) = true)
            · simp [hv, hA]
            · simp [hv, hA]

/-- C9 counterexample: the Python int `0` is not callable, yet constructing a
`Pipeline` with it among `transition_filters` does not raise — the guard
`if trans_filter and not callable(trans_filter)` skips falsy values, and the
value is even retained in the filter list. -/
theorem pipeline_falsy_nonCallable_accepted :
    Pipeline.mk' [] [RawTransFilter.value (PyVal.int 0)] =
      .ok ⟨[], [RawTransFilter.value (PyVal.int 0)]⟩ := rfl

/-- C9 (amended): construction raises `PipelineException` exactly when some
supplied transition filter is a truthy non-callable value; when every
non-callable among them is falsy, construction succeeds and stores the
filters unchanged. -/
theorem pipeline_init_filter_validation (stages : List Stage)
    (raws : List RawTransFilter) :
    (Pipeline.mk' stages raws = .error .pipelineException ↔
      ∃ v, RawTransFilter.value v ∈ raws ∧ v.truthy = true) ∧
    ((∀ v, RawTransFilter.value v ∈ raws → v.truthy = false) →
      Pipeline.mk' stages raws = .ok ⟨stages, raws⟩) := by
  constructor
  · rw [mk_filter_check]
    constructor
    · intro h
      cases hA : raws.any (fun rf => match rf with
          | RawTransFilter.value v => v.truthy
          | RawTransFilter.callable _ => false) with
      | false => rw [hA] at h; simp at h
      | true =>
          obtain ⟨x, hx, hpx⟩ := List.any_eq_true.mp hA
          cases x with
          | callable f => simp at hpx
          | value v => exact ⟨v, hx, hpx⟩
    · intro ⟨v, hm, ht⟩
      have hA : raws.any (fun rf => match rf with
          | RawTransFilter.value v => v.truthy
          | RawTransFilter.callable _ => false) = true :=
        List.any_eq_true.mpr ⟨.value v, hm, by simpa using ht⟩
      simp [hA]
  · intro hall
    rw [mk_filter_check]
    have hA : raws.any (fun rf => match rf with
        | RawTransFilter.value v => v.truthy
        | RawTransFilter.callable _ => false) = false := by
      rw [List.any_eq_false]
      intro x hx
      cases x with
      | callable f => simp
      | value v => simp [hall v hx]
    simp [hA]

/-- Witness for the amended C9: a truthy non-callable (the string "x") does
raise `PipelineException` at construction time. -/
theorem pipeline_init_filter_validation_witness :
    Pipeline.mk' [] [RawTransFilter.value (PyVal.str "x")] =
      .error .pipelineException :=
  (pipeline_init_filter_validation [] [RawTransFilter.value (PyVal.str "x")]).1.mpr
    ⟨.str "x", by simp, rfl⟩

section StackGetTheorems

/-- Scanning past contexts that miss the key. -/
theorem getScan_append_miss (key : String) (l1 l2 : List Ctx)
    (h : ∀ x ∈ l1, x.get key = Option.none) :
    ExecutionContextStack.getScan (l1 ++ l2) key =
      ExecutionContextStack.getScan l2 key := by
  induction l1 with
  | nil => rfl
  | cons a l ih =>
      simp only [List.cons_append, ExecutionContextStack.getScan]
      rw [h a (by simp)]
      exact ih (fun x hx => h x (by simp [hx]))

/-- C3: `ExecutionContextStack.get` scans scopes from the most recently
pushed downward, returning the first scope's value (so with `a` then `b`
pushed and both defining the key, `b` wins as an instance of the first
conjunct); on a total miss it returns the explicitly supplied default
(including a supplied `None`), and with no default raises
`ExecutionContextValueDoesNotExist`. -/
theorem stack_get_scans_top_down (key : String) :
    (∀ (pre post : List Ctx) (c : Ctx) (v : PyVal) (dflt : Option PyVal),
        (∀ x ∈ post, x.get key = Option.none) → c.get key = some v →
        ExecutionContextStack.get (pre ++ c :: post) key dflt = .ok v) ∧
    (∀ (s : List Ctx) (d : PyVal),
        (∀ x ∈ s, x.get key = Option.none) →
        ExecutionContextStack.get s key (some d) = .ok d ∧
        ExecutionContextStack.get s key Option.none =
          .error (.valueDoesNotExist key)) := by
  constructor
  · intro pre post c v dflt hpost hc
    have hrev : (pre ++ c :: post).reverse = post.reverse ++ c :: pre.reverse := by
      simp
    have hskip := getScan_append_miss key post.reverse (c :: pre.reverse)
      (fun x hx => hpost x (by simpa using hx))
    simp [ExecutionContextStack.get, hrev, hskip, ExecutionContextStack.getScan, hc]
  · intro s d hall
    have h0 : ExecutionContextStack.getScan s.reverse key = Option.none := by
      have := getScan_append_miss key s.reverse []
        (fun x hx => hall x (by simpa using hx))
      simpa using this
    constructor
    · simp [ExecutionContextStack.get, h0]
    · simp [ExecutionContextStack.get, h0]

/-- Witness for C3: with scope `a` (id 0) pushed and then `b` (id 1) on top,
both defining "k", `get` returns `b`'s value; for a key in no scope, a
supplied `None` default is returned and the defaultless call raises. -/
theorem stack_get_scans_top_down_witness :
    ExecutionContextStack.get [⟨0, [("k", .int 1)]⟩, ⟨1, [("k", .int 2)]⟩]
        "k" Option.none = .ok (.int 2) ∧
    ExecutionContextStack.get [⟨0, [("k", .int 1)]⟩, ⟨1, [("k", .int 2)]⟩]
        "q" (some PyVal.none) = .ok PyVal.none ∧
    ExecutionContextStack.get [⟨0, [("k", .int 1)]⟩, ⟨1, [("k", .int 2)]⟩]
        "q" Option.none = .error (.valueDoesNotExist "q") := by
  have hq : ∀ x ∈ [(⟨0, [("k", PyVal.int 1)]⟩ : Ctx), ⟨1, [("k", PyVal.int 2)]⟩],
      x.get "q" = Option.none := by
    intro x hx
    simp only [List.mem_cons, List.mem_singleton] at hx
    rcases hx with rfl | rfl | hx
    · rfl
    · rfl
    · simp at hx
  refine ⟨?_, ?_, ?_⟩
  · exact (stack_get_scans_top_down "k").1 [⟨0, [("k", .int 1)]⟩] []
      ⟨1, [("k", .int 2)]⟩ (.int 2) Option.none (by simp) rfl
  · exact ((stack_get_scans_top_down "q").2 _ PyVal.none hq).1
  · exact ((stack_get_scans_top_down "q").2 _ PyVal.none hq).2

end StackGetTheorems

section ConfigTheorems

/-- Provider scan skips providers that miss the key. -/
theorem providerScan_append_miss (key : String) (qre rest : List Config)
    (h : ∀ q ∈ qre, Config.get_raw_value q key = Option.none) :
    Config.providerScan (qre ++ rest) key = Config.providerScan rest key := by
  induction qre with
  | nil => rfl
  | cons a l ih =>
      simp only [List.cons_append, Config.providerScan]
      rw [h a (by simp)]
      exact ih (fun q hq => h q (by simp [hq]))

/-- C4: `get_conf_value` resolves the key through the local mapping first,
then the registered providers in registration order with the first hit
winning, applying `value_type_func` to the resolved raw value; on a total
miss it returns the supplied default, and with no default raises
`ConfigKeyError`. -/
theorem config_get_conf_value_resolution (key : String) :
    (∀ (d : List (String × PyVal)) (ps : List Config) (v : PyVal)
        (dflt : Option PyVal) (vtf : Option (PyVal → PyVal)),
        (d.find? (fun kv => kv.1 == key)).map (·.2) = some v →
        Config.get_conf_value (.mk d ps) key dflt vtf =
          some (applyTypeFunc vtf v)) ∧
    (∀ (d : List (String × PyVal)) (qre : List Config) (p : Config)
        (rest : List Config) (v : PyVal) (dflt : Option PyVal)
        (vtf : Option (PyVal → PyVal)),
        d.find? (fun kv => kv.1 == key) = Option.none →
        (∀ q ∈ qre, Config.get_raw_value q key = Option.none) →
        Config.get_raw_value p key = some v →
        Config.get_conf_value (.mk d (qre ++ p :: rest)) key dflt vtf =
          some (applyTypeFunc vtf v)) ∧
    (∀ (c : Config) (dv : PyVal),
        Config.get_raw_value c key = Option.none →
        Config.get_conf_value c key (some dv) Option.none = some dv ∧
        Config.get_conf_value c key Option.none Option.none = Option.none) := by
  refine ⟨?_, ?_, ?_⟩
  · intro d ps v dflt vtf hv
    cases hf : d.find? (fun kv => kv.1 == key) with
    | none => rw [hf] at hv; simp at hv
    | some kv =>
        rw [hf] at hv
        simp at hv
        simp [Config.get_conf_value, Config.get_raw_value, hf, hv]
  · intro d qre p rest v dflt vtf hd hqre hp
    have hscan : Config.providerScan (qre ++ p :: rest) key = some v := by
      rw [providerScan_append_miss key qre (p :: rest) hqre]
      simp [Config.providerScan, hp]
    simp [Config.get_conf_value, Config.get_raw_value, hd, hscan]
  · intro c dv hmiss
    constructor
    · simp [Config.get_conf_value, hmiss, applyTypeFunc]
    · simp [Config.get_conf_value, hmiss]

/-- Witness for C4: a `Config` with no providers and key "X" absent returns
the supplied default 5 and raises without a default; with a local hit the
type function is applied. -/
theorem config_get_conf_value_resolution_witness :
    Config.get_conf_value (.mk [] []) "X" (some (.int 5)) Option.none =
        some (.int 5) ∧
    Config.get_conf_value (.mk [] []) "X" Option.none Option.none =
        Option.none ∧
    Config.get_conf_value (.mk [("X", .int 3)] []) "X" Option.none
        (some (fun v => match v with | .int n => .int (n + 10) | w => w)) =
        some (.int 13) := by
  refine ⟨?_, ?_, ?_⟩
  · exact ((config_get_conf_value_resolution "X").2.2 (.mk [] []) (.int 5) rfl).1
  · exact ((config_get_conf_value_resolution "X").2.2 (.mk [] []) (.int 5) rfl).2
  · exact (config_get_conf_value_resolution "X").1 [("X", .int 3)] []
      (.int 3) Option.none
      (some (fun v => match v with | .int n => .int (n + 10) | w => w)) rfl

end ConfigTheorems

section EnvConfigTheorems

/-- C5: the free `get_config_value` uses the environment variable's string
value when the name is set and the default otherwise; with no explicit
`val_type` and a non-`None` default, the default's type is inferred as the
cast target, so an integer default makes a set variable parse as an integer,
and an unset variable returns the default unchanged. -/
theorem get_config_value_env_override :
    (∀ (env : List (String × String)) (name : String) (kv : String × String)
        (n : Int) (m : Int),
        env.find? (fun e => e.1 == name) = some kv →
        pyParseInt kv.2 = some n →
        get_config_value env name (.int m) Option.none = .int n) ∧
    (∀ (env : List (String × String)) (name : String) (d : PyVal),
        env.find? (fun e => e.1 == name) = Option.none →
        get_config_value env name d Option.none = d) := by
  constructor
  · intro env name kv n m hfind hparse
    simp [get_config_value, hfind, PyVal.pyTypeOf, castLoop, PyVal.isinst,
      castTo, hparse]
  · intro env name d hfind
    cases d <;>
      simp [get_config_value, hfind, PyVal.pyTypeOf, castLoop, PyVal.isinst]

/-- Witness for C5: with `PORT="9999"` in the environment,
`get_config_value("PORT", default=5432)` returns the integer 9999; with
`PORT` unset it returns 5432 unchanged. -/
theorem get_config_value_env_override_witness :
    get_config_value [("PORT", "9999")] "PORT" (.int 5432) Option.none =
        .int 9999 ∧
    get_config_value [] "PORT" (.int 5432) Option.none = .int 5432 :=
  ⟨get_config_value_env_override.1 [("PORT", "9999")] "PORT" ("PORT", "9999")
      9999 5432 rfl (by decide),
   get_config_value_env_override.2 [] "PORT" (.int 5432) rfl⟩

end EnvConfigTheorems

section PopTheorems

/-- Identity comparison is reflexive. -/
theorem Ctx.idEq_self (c : Ctx) : c.idEq c = true := by
  simp [Ctx.idEq]

/-- The pop loop stops at the topmost occurrence of the marker. -/
theorem popLoop_stops (l t : List Ctx) (m : Ctx)
    (h : ∀ x ∈ l, x.idEq m = false) :
    ExecutionContextStack.popLoop (l ++ m :: t) m = (Option.none, l, m :: t) := by
  induction l with
  | nil => simp [ExecutionContextStack.popLoop, Ctx.idEq_self]
  | cons a l ih =>
      show ExecutionContextStack.popLoop (a :: (l ++ m :: t)) m =
        (Option.none, a :: l, m :: t)
      have hal := ih (fun x hx => h x (by simp [hx]))
      simp [ExecutionContextStack.popLoop, h a (by simp), hal]

/-- With no occurrence of the marker the pop loop drains the whole list and
hits the `IndexError`. -/
theorem popLoop_all_miss (l : List Ctx) (m : Ctx)
    (h : ∀ x ∈ l, x.idEq m = false) :
    ExecutionContextStack.popLoop l m = (some .indexError, l, []) := by
  induction l with
  | nil => rfl
  | cons a l ih =>
      simp only [ExecutionContextStack.popLoop, h a (by simp)]
      rw [ih (fun x hx => h x (by simp [hx]))]
      simp

/-- `pop_to_item` on a stack containing the marker (topmost occurrence shown)
removes exactly the elements above it, in pop order, leaving it on top. -/
theorem pop_to_item_found (A B : List Ctx) (m : Ctx)
    (hB : ∀ x ∈ B, x.idEq m = false) :
    ExecutionContextStack.pop_to_item (A ++ m :: B) m true =
      (Option.none, B.reverse, A ++ [m]) := by
  have hmem : (A ++ m :: B).any (fun x => x.idEq m) = true :=
    List.any_eq_true.mpr ⟨m, by simp, Ctx.idEq_self m⟩
  have hrev : (A ++ m :: B).reverse = B.reverse ++ m :: A.reverse := by simp
  have hloop := popLoop_stops B.reverse A.reverse m
    (fun x hx => hB x (by simpa using hx))
  simp [ExecutionContextStack.pop_to_item, hmem, hrev, hloop]

/-- `pop_to_item` with `raise_exception=True` and the marker absent raises
`GenUtilsValueError` before touching the stack. -/
theorem pop_to_item_missing (s : List Ctx) (m : Ctx)
    (h : ∀ x ∈ s, x.idEq m = false) :
    ExecutionContextStack.pop_to_item s m true =
      (some .genUtilsValueError, [], s) := by
  have hany : s.any (fun x => x.idEq m) = false := by
    rw [List.any_eq_false]
    intro x hx
    simp [h x hx]
  simp [ExecutionContextStack.pop_to_item, hany]

/-- C8: for a stack containing `m` (with nothing above `m` equal to it),
`pop_to_item(m)` removes every element above `m`, leaves `m` on top and
returns the removed elements in pop order (the reverse of push order); for
`m` absent with `raise_exception=True` it raises `GenUtilsValueError` and
leaves the stack unchanged. -/
theorem pop_to_item_spec :
    (∀ (A B : List Ctx) (m : Ctx), (∀ x ∈ B, x.idEq m = false) →
        ExecutionContextStack.pop_to_item (A ++ m :: B) m true =
          (Option.none, B.reverse, A ++ [m])) ∧
    (∀ (s : List Ctx) (m : Ctx), (∀ x ∈ s, x.idEq m = false) →
        ExecutionContextStack.pop_to_item s m true =
          (some .genUtilsValueError, [], s)) :=
  ⟨pop_to_item_found, pop_to_item_missing⟩

/-- Witness for C8: popping to the scope with id 1 in the four-scope stack
removes the two scopes above it in pop order; popping to an absent id 9
raises and leaves the stack as it was. -/
theorem pop_to_item_spec_witness :
    ExecutionContextStack.pop_to_item
        [⟨0, []⟩, ⟨1, []⟩, ⟨2, []⟩, ⟨3, []⟩] ⟨1, []⟩ true =
      (Option.none, [⟨3, []⟩, ⟨2, []⟩], [⟨0, []⟩, ⟨1, []⟩]) ∧
    ExecutionContextStack.pop_to_item [⟨0, []⟩, ⟨1, []⟩] ⟨9, []⟩ true =
      (some .genUtilsValueError, [], [⟨0, []⟩, ⟨1, []⟩]) :=
  ⟨pop_to_item_spec.1 [⟨0, []⟩] [⟨2, []⟩, ⟨3, []⟩] ⟨1, []⟩ (by decide),
   pop_to_item_spec.2 [⟨0, []⟩, ⟨1, []⟩] ⟨9, []⟩ (by decide)⟩

/-- C10: `pop_to_item` with `raise_exception=False` and an absent marker
never returns normally: it pops every element (all of them, in pop order)
and the top-of-stack read on the now-empty list raises a raw `IndexError`
(not one of the module's structured exceptions), leaving the stack empty. -/
theorem pop_to_item_no_raise_empties (s : List Ctx) (m : Ctx)
    (h : ∀ x ∈ s, x.idEq m = false) :
    ExecutionContextStack.pop_to_item s m false =
      (some .indexError, s.reverse, []) := by
  have hloop := popLoop_all_miss s.reverse m (fun x hx => h x (by simpa using hx))
  simp [ExecutionContextStack.pop_to_item, hloop]

/-- Witness for C10: popping to an absent id 9 without raising drains the
two-scope stack and ends in `IndexError` with the stack empty. -/
theorem pop_to_item_no_raise_empties_witness :
    ExecutionContextStack.pop_to_item [⟨0, []⟩, ⟨1, []⟩] ⟨9, []⟩ false =
      (some .indexError, [⟨1, []⟩, ⟨0, []⟩], []) :=
  pop_to_item_no_raise_empties [⟨0, []⟩, ⟨1, []⟩] ⟨9, []⟩ (by decide)

/-- C7: a properly nested (LIFO) use of `AsExecutionContext` restores the
global stack to exactly its pre-entry shape on exit: with `pre` the stack at
entry and `during` the scopes pushed inside the block (all new objects, by
`push`'s duplicate check), `__exit__` pops everything above (and not
including) the remembered marker — the element on top at entry — and the
whole stack is cleared when it was empty at entry. -/
theorem as_execution_context_restores_stack (pre during : List Ctx)
    (h : ∀ x ∈ during, ∀ y ∈ pre, x.idEq y = false) :
    AsExecutionContext.exit (AsExecutionContext.enterMark pre) (pre ++ during) =
      (Option.none, pre) := by
  rcases List.eq_nil_or_concat pre with rfl | ⟨A, m, rfl⟩
  · rfl
  · have hmark : AsExecutionContext.enterMark (A ++ [m]) = some m := by
      simp [AsExecutionContext.enterMark]
    have hstack : (A ++ [m]) ++ during = A ++ m :: during := by simp
    have hpop := pop_to_item_found A during m
      (fun x hx => h x hx m (by simp))
    simp [AsExecutionContext.exit, hmark, hstack, hpop]

/-- Witness for C7: entering on the stack `[c0, c1]` and pushing two fresh
scopes inside the block, exit restores exactly `[c0, c1]`; on an empty
pre-entry stack exit clears everything. -/
theorem as_execution_context_restores_stack_witness :
    AsExecutionContext.exit
      (AsExecutionContext.enterMark [⟨0, []⟩, ⟨1, []⟩])
      ([⟨0, []⟩, ⟨1, []⟩] ++ [⟨2, []⟩, ⟨3, []⟩]) =
      (Option.none, [⟨0, []⟩, ⟨1, []⟩]) ∧
    AsExecutionContext.exit (AsExecutionContext.enterMark [])
      ([] ++ [⟨2, []⟩]) = (Option.none, []) :=
  ⟨as_execution_context_restores_stack [⟨0, []⟩, ⟨1, []⟩] [⟨2, []⟩, ⟨3, []⟩]
      (by decide),
   as_execution_context_restores_stack [] [⟨2, []⟩] (by decide)⟩

end PopTheorems
